import Mathlib

/-!
Verification development for the tweet-scraper repository.

The definitions below are a shallow embedding of the Rust sources:
- src/scraper.rs : the stream engine inside TweetScraper::tweets, the
  query_twitter retry loop, and the parse_tweets page decoder;
- src/header_persist.rs : save_headers and load_headers;
- src/error.rs : the error taxonomy.

Effectful parts are made explicit: the network is an oracle passed to the
engine (indexed by the fetch call number, so responses may differ between
calls), a pull of the stream is a pure step function on the engine state,
and the file system of the header persistence module is the file content
itself.
-/

namespace TweetScraper

/-- Model of a serde JSON value (serde_json::Value). Objects keep their
fields as an association list; the two places where the source relies on
key-ordered maps (the BTreeMap collections deserialized by the page
decoder) convert field lists with toBTreeMap below. -/
inductive Json where
  | null : Json
  | bool : Bool → Json
  | num : Int → Json
  | str : String → Json
  | arr : List Json → Json
  | obj : List (String × Json) → Json

/-- The error enum of src/error.rs (the chromium and header-persistence
variants are irrelevant to the scraping engine and omitted; message texts
are kept only where a claim depends on them). -/
inductive Error where
  | internal : String → Error
  | noGuestToken : Error
  | invalidGuestToken : Error
  | tweetParse : String → Error
  | badStatus : Nat → Error
  | network : String → Error
  deriving DecidableEq, Repr

/-- serde_json::Value indexing, tweet["id_str"]: on a JSON object look the
key up and give null when absent; on every other value give null. -/
def Json.index (j : Json) (key : String) : Json :=
  match j with
  | .obj fields =>
    match fields.lookup key with
    | some v => v
    | none => .null
  | _ => .null

/-- Rust str::parse::<u128>: an optional leading plus sign, then one or
more ASCII digits, rejecting the empty string, non-digits and values of
2^128 or more (overflow). -/
def parseU128 (s : String) : Option Nat :=
  let cs :=
    match s.toList with
    | '+' :: rest => rest
    | cs => cs
  if cs.isEmpty then none
  else if cs.all (fun c => c.isDigit) then
    let n := cs.foldl (fun acc c => 10 * acc + (c.toNat - '0'.toNat)) 0
    if n < 2 ^ 128 then some n else none
  else none

/-- The parse_id closure of TweetScraper::tweets: read the id_str field as
a string (null indexing and non-string values both surface as the missing
key error, as Value::as_str does) and parse it as a u128. -/
def parse_id (tweet : Json) : Except Error Nat :=
  match tweet.index "id_str" with
  | .str s =>
    match parseU128 s with
    | some n => .ok n
    | none => .error (.tweetParse "invalid id_str")
  | _ => .error (.tweetParse "no id_str key")

/-- The FetchState struct of src/scraper.rs: the working memory of one
stream produced by TweetScraper::tweets. -/
structure FetchState where
  tweets : List Json
  query : String
  limit : Option Nat
  min_id : Option Nat
  tweets_count : Nat
  cursor : Option String
  errored : Bool

/-- FetchState::default(): every field at its Default value. -/
def FetchState.defaultState : FetchState :=
  { tweets := [], query := "", limit := none, min_id := none,
    tweets_count := 0, cursor := none, errored := false }

/-- The state reset performed at the top of TweetScraper::tweets: the whole
FetchState is replaced by a fresh one carrying only the new query, limit
and floor; the previous state is dropped. -/
def tweets_reset (_prev : FetchState) (query : String) (limit : Option Nat)
    (min_id : Option Nat) : FetchState :=
  { FetchState.defaultState with query := query, limit := limit, min_id := min_id }

/-- The should_return_tweet closure: when a floor is configured, parse the
identifier of the candidate tweet; a parse failure sets the sticky errored
flag and yields the error, an identifier below the floor yields nothing,
and otherwise the yielded-count is incremented and the tweet yielded. -/
def should_return_tweet (s : FetchState) (tweet : Json) :
    Option (Except Error Json) × FetchState :=
  match s.min_id with
  | some m =>
    match parse_id tweet with
    | .ok id =>
      if id < m then (none, s)
      else (some (.ok tweet), { s with tweets_count := s.tweets_count + 1 })
    | .error e => (some (.error e), { s with errored := true })
  | none => (some (.ok tweet), { s with tweets_count := s.tweets_count + 1 })

/-- The limit guard at the top of the unfold closure:
tweets_count >= limit for a configured limit. -/
def limit_reached (s : FetchState) : Bool :=
  match s.limit with
  | some l => l ≤ s.tweets_count
  | none => false

/-- The fetch half of the unfold closure of TweetScraper::tweets: call
query_twitter with the current cursor (the oracle stands for one such
call); on success extend the buffer and store the new cursor, then try to
pop and return the head once; on failure set the sticky errored flag and
yield the error. The Bool records that a fetch was performed. -/
def stepFetch (fetch : Option String → Except Error (List Json × String))
    (s : FetchState) : Option (Except Error Json × FetchState) × Bool :=
  match fetch s.cursor with
  | .ok (ts, c) =>
    match s.tweets ++ ts with
    | [] => (none, true)
    | t :: rest =>
      match should_return_tweet { s with tweets := rest, cursor := some c } t with
      | (some r, s4) => (some (r, s4), true)
      | (none, _) => (none, true)
  | .error e => (some (.error e, { s with errored := true }), true)

/-- One pull of the stream: the body of the unfold closure in
TweetScraper::tweets. A none outcome is the closure returning None, which
under futures_util::stream::unfold terminates the stream permanently. The
Bool records whether the pull performed a page fetch. -/
def step (fetch : Option String → Except Error (List Json × String))
    (s : FetchState) : Option (Except Error Json × FetchState) × Bool :=
  if s.errored then (none, false)
  else if limit_reached s then (none, false)
  else
    match s.tweets with
    | t :: rest =>
      match should_return_tweet { s with tweets := rest } t with
      | (some r, s2) => (some (r, s2), false)
      | (none, s2) => stepFetch fetch s2
    | [] => stepFetch fetch s

/-- Drive the stream for at most n pulls, starting at fetch call number k:
the list of items produced and the number of page fetches performed. The
run stops as soon as a pull returns none, because unfold then terminates
the stream. -/
def run (fetch : Nat → Option String → Except Error (List Json × String)) :
    Nat → Nat → FetchState → List (Except Error Json) × Nat
  | _, 0, _ => ([], 0)
  | k, Nat.succ n, s =>
    match step (fetch k) s with
    | (none, fetched) => ([], if fetched then 1 else 0)
    | (some (item, s2), fetched) =>
      let r := run fetch (k + if fetched then 1 else 0) n s2
      (item :: r.1, (if fetched then 1 else 0) + r.2)

/-- One hex digit as written by the serializer (lowercase). -/
def hexDigitChar (n : Nat) : Char :=
  if n < 10 then Char.ofNat ('0'.toNat + n) else Char.ofNat ('a'.toNat + n - 10)

/-- serde_json string escaping: quote and backslash are escaped, control
characters below 0x20 use the short escapes or a \u00xx sequence, and
every other character is written as is. -/
def escapeChar (c : Char) : List Char :=
  if c = '"' then ['\\', '"']
  else if c = '\\' then ['\\', '\\']
  else if c = '\x08' then ['\\', 'b']
  else if c = '\t' then ['\\', 't']
  else if c = '\n' then ['\\', 'n']
  else if c = '\x0c' then ['\\', 'f']
  else if c = '\r' then ['\\', 'r']
  else if c.toNat < 32 then
    ['\\', 'u', '0', '0', hexDigitChar (c.toNat / 16), hexDigitChar (c.toNat % 16)]
  else [c]

/-- JSON serialization of one string: surrounding quotes with the
characters escaped. -/
def renderString (s : String) : String :=
  "\"" ++ String.mk (s.toList.map escapeChar).flatten ++ "\""

mutual

/-- serde_json::to_string: the compact textual serialization used on the
timeline substructure before the cursor scan. -/
def Json.render : Json → String
  | .null => "null"
  | .bool true => "true"
  | .bool false => "false"
  | .num n => toString n
  | .str s => renderString s
  | .arr xs => "[" ++ renderList xs ++ "]"
  | .obj fs => "\x7b" ++ renderFields fs ++ "\x7d"

/-- Comma-separated serialization of array elements. -/
def renderList : List Json → String
  | [] => ""
  | [x] => Json.render x
  | x :: y :: rest => Json.render x ++ "," ++ renderList (y :: rest)

/-- Comma-separated serialization of object fields. -/
def renderFields : List (String × Json) → String
  | [] => ""
  | [kv] => renderString kv.1 ++ ":" ++ Json.render kv.2
  | kv :: kv2 :: rest =>
    renderString kv.1 ++ ":" ++ Json.render kv.2 ++ "," ++
      renderFields (kv2 :: rest)

end

/-- Continuation of the regex body match, after at least one character has
been consumed by the non-greedy dot-plus: stop at the first closing quote
(minimal match), fail on a newline (the dot of the regex does not match
newlines) or at end of input. -/
def bodyAux : List Char → Option (List Char)
  | [] => none
  | c :: rest =>
    if c = '"' then some []
    else if c = '\n' then none
    else (bodyAux rest).map (fun b => c :: b)

/-- The body of the scroll token: at least one character, then the
continuation above. -/
def takeBody : List Char → Option (List Char)
  | [] => none
  | c :: rest =>
    if c = '\n' then none
    else (bodyAux rest).map (fun b => c :: b)

/-- Match of the cursor regex at one position: a double quote, the literal
scroll: prefix, a minimal non-empty newline-free body, and a closing
quote; the capture is the prefix together with the body. -/
def tokenAt : List Char → Option String
  | '"' :: rest =>
    if rest.take 7 = "scroll:".toList then
      (takeBody (rest.drop 7)).map (fun body => "scroll:" ++ String.mk body)
    else none
  | _ => none

/-- Leftmost match of the cursor regex: try each start position from the
left, as the regex engine does for Regex::captures. -/
def findCursorFrom : List Char → Option String
  | [] => none
  | c :: rest =>
    match tokenAt (c :: rest) with
    | some s => some s
    | none => findCursorFrom rest

/-- Regex::captures of "(scroll:.+?)" over a string, capture group 1. -/
def findCursor (s : String) : Option String :=
  findCursorFrom s.toList

/-- Lexicographic strict order on character lists by code point, which on
UTF-8 strings coincides with the byte-wise Ord used by BTreeMap<String>. -/
def charListLt : List Char → List Char → Bool
  | _, [] => false
  | [], _ :: _ => true
  | a :: as, b :: bs =>
    if a.toNat < b.toNat then true
    else if b.toNat < a.toNat then false
    else charListLt as bs

/-- The key order of the BTreeMap collections: Ord on String. -/
def strLt (a b : String) : Bool := charListLt a.toList b.toList

/-- Insertion into a key-sorted association list, replacing the value when
the key compares equal: one step of building a BTreeMap. -/
def insertSorted (k : String) (v : Json) : List (String × Json) → List (String × Json)
  | [] => [(k, v)]
  | (k2, v2) :: rest =>
    if strLt k k2 then (k, v) :: (k2, v2) :: rest
    else if strLt k2 k then (k2, v2) :: insertSorted k v rest
    else (k, v) :: rest

/-- Deserializing a JSON object into a BTreeMap<String, Value>: the
entries end up ordered by the ascending natural order of their keys, a
later duplicate key replacing an earlier one. -/
def toBTreeMap (l : List (String × Json)) : List (String × Json) :=
  l.foldl (fun acc kv => insertSorted kv.1 kv.2 acc) []

/-- Object field access used during deserialization. -/
def Json.getField (j : Json) (key : String) : Option Json :=
  match j with
  | .obj fields => fields.lookup key
  | _ => none

/-- The Root struct of parse_tweets after serde deserialization: the
tweets and users BTreeMaps under globalObjects (camelCase rename), plus
the opaque timeline value. -/
structure Root where
  tweets : List (String × Json)
  users : List (String × Json)
  timeline : Json

/-- serde_json::from_value::<Root>: require a globalObjects object holding
tweets and users objects, and a timeline field; unknown fields are
ignored. The message texts of the structural errors are abbreviations of
the serde messages; no claim depends on them. -/
def deserializeRoot (j : Json) : Except Error Root :=
  match j.getField "globalObjects" with
  | none => .error (.tweetParse "missing field globalObjects")
  | some go =>
    match go.getField "tweets" with
    | none => .error (.tweetParse "missing field tweets")
    | some tj =>
      match tj with
      | .obj tfs =>
        match go.getField "users" with
        | none => .error (.tweetParse "missing field users")
        | some uj =>
          match uj with
          | .obj ufs =>
            match j.getField "timeline" with
            | none => .error (.tweetParse "missing field timeline")
            | some tl =>
              .ok { tweets := toBTreeMap tfs, users := toBTreeMap ufs, timeline := tl }
          | _ => .error (.tweetParse "users is not an object")
      | _ => .error (.tweetParse "tweets is not an object")

/-- serde_json map insertion for the reserved user field: replace the
value when the key exists, otherwise add the field. Field placement
inside a record is irrelevant to every claim. -/
def objInsert (fields : List (String × Json)) (key : String) (v : Json) :
    List (String × Json) :=
  if fields.any (fun p => p.1 = key) then
    fields.map (fun p => if p.1 = key then (key, v) else p)
  else fields ++ [(key, v)]

/-- The user-embedding loop of parse_tweets: for an object tweet whose
user_id_str field is a string naming a known user, embed that user under
the user field; otherwise leave the tweet unchanged. -/
def mergeUser (users : List (String × Json)) (tweet : Json) : Json :=
  match tweet with
  | .obj fields =>
    match (Json.obj fields).index "user_id_str" with
    | .str uid =>
      match users.lookup uid with
      | some user => .obj (objInsert fields "user" user)
      | none => .obj fields
    | _ => .obj fields
  | v => v

/-- parse_tweets of src/scraper.rs: deserialize the Root, embed users into
tweets, collect the tweet values in ascending key order and reverse them,
then extract the cursor as the first match of the scroll regex over the
serialized timeline; a missing match is the fatal cursor error. -/
def parse_tweets (j : Json) : Except Error (List Json × String) :=
  match deserializeRoot j with
  | .error e => .error e
  | .ok root =>
    match findCursor (Json.render root.timeline) with
    | none => .error (.tweetParse "could not find cursor")
    | some c => .ok ((root.tweets.map (fun kv => mergeUser root.users kv.2)).reverse, c)

/-- reqwest StatusCode::is_success: the 2xx range. -/
def isSuccessStatus (c : Nat) : Bool := 200 ≤ c && c ≤ 299

/-- reqwest StatusCode::is_server_error: the 5xx range. -/
def isServerErrorStatus (c : Nat) : Bool := 500 ≤ c && c ≤ 599

/-- The RETRY_STATUS list of query_twitter: 429 (too many requests) and
408 (request timeout). -/
def retry_status : List Nat := [429, 408]

/-- The retry condition of the query_twitter loop:
response.status().is_server_error() || RETRY_STATUS.contains(status). -/
def isRetryStatus (c : Nat) : Bool := isServerErrorStatus c || retry_status.contains c

/-- One attempt of the HTTP loop: a transport failure of send (fatal
network error), or a response with a status code and, when the status is
successful, a decoded body. -/
inductive HttpAttempt where
  | fail : String → HttpAttempt
  | resp : Nat → Json → HttpAttempt

/-- Outcome of the query_twitter loop: the parsed page with the total
seconds slept, an error with the total seconds slept, or still running
because every attempt so far was retried. -/
inductive QueryOutcome where
  | ok : List Json → String → Nat → QueryOutcome
  | err : Error → Nat → QueryOutcome
  | hung : QueryOutcome

/-- Account for one fixed sleep before a retried attempt. -/
def addSleep (secs : Nat) : QueryOutcome → QueryOutcome
  | .ok ts c s => .ok ts c (secs + s)
  | .err e s => .err e (secs + s)
  | .hung => .hung

/-- The retry loop of query_twitter over the successive attempts the
network produces. The request URL is built once before the loop and never
changes between iterations, so it does not appear here; a transport error
of send is returned at once; a 2xx response breaks out to the body decode
and parse_tweets; a retryable status sleeps the fixed 60 seconds and
retries; every other status is the fatal BadStatus error carrying the
numeric code. An exhausted attempt list means the loop is still retrying. -/
def query_twitter_loop : List HttpAttempt → QueryOutcome
  | [] => .hung
  | .fail msg :: _ => .err (.network msg) 0
  | .resp status body :: rest =>
    if isSuccessStatus status then
      match parse_tweets body with
      | .ok (ts, c) => .ok ts c 0
      | .error e => .err e 0
    else if isRetryStatus status then addSleep 60 (query_twitter_loop rest)
    else .err (.badStatus status) 0

/-- Validity and normalization of one header-name character, as in
HeaderName::from_bytes of the http crate: lowercase letters, digits and
the listed punctuation are kept, uppercase letters are lowercased, and
every other character is invalid. The two characters written with
Char.ofNat are the apostrophe (39) and the backquote (96). -/
def headerNameByte (c : Char) : Option Char :=
  if ('a' ≤ c && c ≤ 'z') || ('0' ≤ c && c ≤ '9') then some c
  else if 'A' ≤ c && c ≤ 'Z' then some (Char.ofNat (c.toNat + 32))
  else if c = '!' || c = '#' || c = '$' || c = '%' || c = '&' || c = '*' ||
      c = '+' || c = '-' || c = '.' || c = '^' || c = '_' || c = '|' ||
      c = '~' || c = Char.ofNat 39 || c = Char.ofNat 96 then some c
  else none

/-- Validate and normalize every character of a header name in turn,
failing on the first invalid one. -/
def mapHeaderChars : List Char → Option (List Char)
  | [] => some []
  | c :: rest =>
    match headerNameByte c with
    | some c2 => (mapHeaderChars rest).map (fun l => c2 :: l)
    | none => none

/-- HeaderName::from_bytes: nonempty and every character valid, the
result being the normalized (lowercased) name. -/
def headerNameFromChars (l : List Char) : Option (List Char) :=
  if l.isEmpty then none else mapHeaderChars l

/-- Validity of one header-value byte, as in HeaderValue::from_bytes:
horizontal tab, or any byte of value at least 32 other than delete. -/
def isValidValueChar (c : Char) : Bool :=
  c = '\t' || (32 ≤ c.toNat && c.toNat ≠ 127)

/-- str::split_once on one separator character: split at the first
occurrence, or fail when the separator does not occur. -/
def splitOnceChar (sep : Char) : List Char → Option (List Char × List Char)
  | [] => none
  | c :: rest =>
    if c = sep then some ([], rest)
    else (splitOnceChar sep rest).map (fun p => (c :: p.1, p.2))

/-- The line splitting done by tokio lines(): accumulate characters until
a newline, stripping one carriage return right before the newline; a
final segment without newline is still a line, while a file ending in a
newline produces no extra empty line. -/
def splitLinesAux : List Char → List Char → List (List Char)
  | acc, [] => if acc.isEmpty then [] else [acc.reverse]
  | acc, c :: rest =>
    if c = '\n' then
      (match acc with
       | '\r' :: acc2 => acc2.reverse
       | _ => acc.reverse) :: splitLinesAux [] rest
    else splitLinesAux (c :: acc) rest

/-- The lines of a file content. -/
def splitLines (content : List Char) : List (List Char) :=
  splitLinesAux [] content

/-- The format errors of load_headers (I/O errors are outside the model:
the file content is given). -/
inductive LoadHeadersError where
  | parse : String → LoadHeadersError
  deriving DecidableEq, Repr

/-- HeaderMap::insert: replace the value when the name exists, otherwise
add the pair at the end. -/
def insertHeader (m : List (List Char × List Char)) (k v : List Char) :
    List (List Char × List Char) :=
  if m.any (fun p => p.1 = k) then
    m.map (fun p => if p.1 = k then (k, v) else p)
  else m ++ [(k, v)]

/-- One iteration of the load_headers line loop: skip a line that is
empty after trimming, otherwise split at the first equals sign, validate
the name and the value, and insert the header. -/
def processLine (acc : List (List Char × List Char)) (line : List Char) :
    Except LoadHeadersError (List (List Char × List Char)) :=
  if line.all (fun c => c.isWhitespace) then .ok acc
  else
    match splitOnceChar '=' line with
    | some (k, v) =>
      match headerNameFromChars k with
      | some name =>
        if v.all isValidValueChar then .ok (insertHeader acc name v)
        else .error (.parse "invalid header value")
      | none => .error (.parse "invalid header name")
    | none => .error (.parse "invalid line: no equals sign found")

/-- load_headers of src/header_persist.rs, on the content of the file:
fold the line parser over the lines. -/
def load_headers (content : List Char) :
    Except LoadHeadersError (List (List Char × List Char)) :=
  (splitLines content).foldlM processLine []

/-- save_headers of src/header_persist.rs: one line per header, the name,
an equals sign, the value and a newline, in map order; the result is the
content written to the file. -/
def save_headers (headers : List (List Char × List Char)) : List Char :=
  (headers.map (fun h => h.1 ++ '=' :: h.2 ++ ['\n'])).flatten

/-- A successful stream item. -/
def isOkItem : Except Error Json → Bool
  | .ok _ => true
  | .error _ => false

/-- An error stream item. -/
def isErrItem : Except Error Json → Bool
  | .ok _ => false
  | .error _ => true

/- Concrete inputs used by witnesses and counterexamples. -/

/-- A tweet whose identifier is 50. -/
def tweet50 : Json := .obj [("id_str", .str "50")]

/-- A tweet whose identifier is 200. -/
def tweet200 : Json := .obj [("id_str", .str "200")]

/-- A stream state with floor 100 whose buffer head has identifier 50. -/
def sBelow : FetchState :=
  { tweets := [tweet50], query := "q", limit := none, min_id := some 100,
    tweets_count := 0, cursor := none, errored := false }

/-- A network returning one page holding the identifier-200 tweet. -/
def fetchC1 : Nat → Option String → Except Error (List Json × String) :=
  fun _ _ => .ok ([tweet200], "scroll:a")

/-- The same network as a single fetch call. -/
def fetchOne : Option String → Except Error (List Json × String) :=
  fun _ => .ok ([tweet200], "scroll:a")

/-- A fresh stream state with an empty buffer and no stopping condition. -/
def sEmpty : FetchState :=
  { tweets := [], query := "q", limit := none, min_id := none,
    tweets_count := 0, cursor := none, errored := false }

/-- A network returning an empty page with a valid cursor. -/
def fetchEmpty : Nat → Option String → Except Error (List Json × String) :=
  fun _ _ => .ok ([], "scroll:next")

/-- A network failing every fetch with a transport error. -/
def fetchFail : Nat → Option String → Except Error (List Json × String) :=
  fun _ _ => .error (.network "connection reset")

/-- A state whose yielded count has reached its configured limit. -/
def sReached : FetchState :=
  { tweets := [tweet200], query := "q", limit := some 1, min_id := none,
    tweets_count := 1, cursor := none, errored := false }

/-- A state already carrying the sticky error flag. -/
def sErrored : FetchState :=
  { tweets := [tweet200], query := "q", limit := none, min_id := none,
    tweets_count := 0, cursor := none, errored := true }

/-- A complete raw page: two tweets, one user, one timeline holding a
scroll token. -/
def page1 : Json :=
  .obj [("globalObjects",
          .obj [("tweets",
                  .obj [("10", .obj [("id_str", .str "10"), ("user_id_str", .str "7")]),
                        ("11", .obj [("id_str", .str "11")])]),
                ("users", .obj [("7", .obj [("name", .str "u7")])])]),
        ("timeline", .obj [("cursor", .str "scroll:AAA")])]

/-- The deserialized Root of page1. -/
def rootPage1 : Root :=
  { tweets := [("10", .obj [("id_str", .str "10"), ("user_id_str", .str "7")]),
               ("11", .obj [("id_str", .str "11")])],
    users := [("7", .obj [("name", .str "u7")])],
    timeline := .obj [("cursor", .str "scroll:AAA")] }

/-- The record sequence parse_tweets produces on page1. -/
def recsPage1 : List Json :=
  [Json.obj [("id_str", .str "11")],
   Json.obj [("id_str", .str "10"), ("user_id_str", .str "7"),
             ("user", .obj [("name", .str "u7")])]]

/-- A concrete header mapping. -/
def hdrs : List (List Char × List Char) :=
  [("x-guest-token".toList, "abc123".toList),
   ("accept".toList, "text/html,*/*;q=0.8".toList)]

/-! Helper lemmas about the stream engine. -/

theorem srt_none_inv {s : FetchState} {t : Json} {s2 : FetchState}
    (h : should_return_tweet s t = (none, s2)) :
    s2 = s ∧ ∃ m id, s.min_id = some m ∧ parse_id t = .ok id ∧ id < m := by
  cases hm : s.min_id with
  | none => simp [should_return_tweet, hm] at h
  | some m =>
    cases hp : parse_id t with
    | error e => simp [should_return_tweet, hm, hp] at h
    | ok id =>
      by_cases hlt : id < m
      · simp [should_return_tweet, hm, hp, hlt] at h
        exact ⟨h.symm, m, id, rfl, rfl, hlt⟩
      · simp [should_return_tweet, hm, hp, hlt] at h

theorem srt_ok_inv {s : FetchState} {t u : Json} {s2 : FetchState}
    (h : should_return_tweet s t = (some (.ok u), s2)) :
    u = t ∧ s2 = { s with tweets_count := s.tweets_count + 1 } ∧
      ∀ m, s.min_id = some m → ∃ id, parse_id t = .ok id ∧ m ≤ id := by
  cases hm : s.min_id with
  | none =>
    simp [should_return_tweet, hm] at h
    exact ⟨h.1.symm, h.2.symm, fun m hmm => by simp [hm] at hmm⟩
  | some m =>
    cases hp : parse_id t with
    | error e => simp [should_return_tweet, hm, hp] at h
    | ok id =>
      by_cases hlt : id < m
      · simp [should_return_tweet, hm, hp, hlt] at h
      · simp [should_return_tweet, hm, hp, hlt] at h
        refine ⟨h.1.symm, h.2.symm, fun m2 hmm => ?_⟩
        cases hmm
        exact ⟨id, rfl, Nat.le_of_not_lt hlt⟩

theorem srt_err_inv {s : FetchState} {t : Json} {e : Error} {s2 : FetchState}
    (h : should_return_tweet s t = (some (.error e), s2)) :
    s2 = { s with errored := true } := by
  cases hm : s.min_id with
  | none => simp [should_return_tweet, hm] at h
  | some m =>
    cases hp : parse_id t with
    | error e2 =>
      simp [should_return_tweet, hm, hp] at h
      exact h.2.symm
    | ok id =>
      by_cases hlt : id < m
      · simp [should_return_tweet, hm, hp, hlt] at h
      · simp [should_return_tweet, hm, hp, hlt] at h

theorem stepFetch_fetched (g : Option String → Except Error (List Json × String))
    (s : FetchState) : (stepFetch g s).2 = true := by
  unfold stepFetch
  split
  next ts c hf =>
    split
    · rfl
    next t rest hts =>
      split
      next r s4 hsrt => rfl
      next s4 hsrt => rfl
  next e hf => rfl

theorem stepFetch_ok_inv {g : Option String → Except Error (List Json × String)}
    {s : FetchState} {u : Json} {s2 : FetchState} {b : Bool}
    (h : stepFetch g s = (some (.ok u, s2), b)) :
    s2.limit = s.limit ∧ s2.min_id = s.min_id ∧
      s2.tweets_count = s.tweets_count + 1 ∧ s2.errored = s.errored ∧
      ∀ m, s.min_id = some m → ∃ id, parse_id u = .ok id ∧ m ≤ id := by
  unfold stepFetch at h
  split at h
  next ts c hf =>
    split at h
    · simp at h
    next t rest hts =>
      split at h
      next r s4 hsrt =>
        simp only [Prod.mk.injEq, Option.some.injEq] at h
        obtain ⟨⟨hr, hs4⟩, _⟩ := h
        subst hr
        obtain ⟨hut, hs2, hmin⟩ := srt_ok_inv hsrt
        subst hs4
        rw [hs2]
        refine ⟨rfl, rfl, rfl, rfl, fun m hm2 => ?_⟩
        rw [hut]
        exact hmin m hm2
      next s4 hsrt => simp at h
  next e hf => simp at h

theorem stepFetch_err_inv {g : Option String → Except Error (List Json × String)}
    {s : FetchState} {e : Error} {s2 : FetchState} {b : Bool}
    (h : stepFetch g s = (some (.error e, s2), b)) :
    s2.limit = s.limit ∧ s2.min_id = s.min_id ∧
      s2.tweets_count = s.tweets_count ∧ s2.errored = true := by
  unfold stepFetch at h
  split at h
  next ts c hf =>
    split at h
    · simp at h
    next t rest hts =>
      split at h
      next r s4 hsrt =>
        simp only [Prod.mk.injEq, Option.some.injEq] at h
        obtain ⟨⟨hr, hs4⟩, _⟩ := h
        subst hr
        have hrec := srt_err_inv hsrt
        subst hs4
        rw [hrec]
        exact ⟨rfl, rfl, rfl, rfl⟩
      next s4 hsrt => simp at h
  next e2 hf =>
    simp only [Prod.mk.injEq, Option.some.injEq] at h
    obtain ⟨⟨_, hs2⟩, _⟩ := h
    rw [← hs2]
    exact ⟨rfl, rfl, rfl, rfl⟩

theorem step_none_of_errored {g : Option String → Except Error (List Json × String)}
    {s : FetchState} (h : s.errored = true) : step g s = (none, false) := by
  simp [step, h]

theorem step_none_of_limit {g : Option String → Except Error (List Json × String)}
    {s : FetchState} (h : limit_reached s = true) : step g s = (none, false) := by
  cases he : s.errored <;> simp [step, he, h]

theorem step_some_not_terminal {g : Option String → Except Error (List Json × String)}
    {s : FetchState} {p : Except Error Json × FetchState} {b : Bool}
    (h : step g s = (some p, b)) : s.errored = false ∧ limit_reached s = false := by
  cases he : s.errored with
  | true => rw [step_none_of_errored he] at h; simp at h
  | false =>
    cases hl : limit_reached s with
    | true => rw [step_none_of_limit hl] at h; simp at h
    | false => exact ⟨rfl, rfl⟩

theorem step_ok_inv {g : Option String → Except Error (List Json × String)}
    {s : FetchState} {u : Json} {s2 : FetchState} {b : Bool}
    (h : step g s = (some (.ok u, s2), b)) :
    s2.limit = s.limit ∧ s2.min_id = s.min_id ∧
      s2.tweets_count = s.tweets_count + 1 ∧ s2.errored = s.errored ∧
      ∀ m, s.min_id = some m → ∃ id, parse_id u = .ok id ∧ m ≤ id := by
  unfold step at h
  split at h
  · simp at h
  · split at h
    · simp at h
    · split at h
      next t rest hts =>
        split at h
        next r s4 hsrt =>
          simp only [Prod.mk.injEq, Option.some.injEq] at h
          obtain ⟨⟨hr, hs4⟩, _⟩ := h
          subst hr
          obtain ⟨hut, hs2, hmin⟩ := srt_ok_inv hsrt
          subst hs4
          rw [hs2]
          refine ⟨rfl, rfl, rfl, rfl, fun m hm2 => ?_⟩
          rw [hut]
          exact hmin m hm2
        next s4 hsrt =>
          have h4 := (srt_none_inv hsrt).1
          have hres := stepFetch_ok_inv h
          rw [h4] at hres
          simpa using hres
      next hts => exact stepFetch_ok_inv h

theorem step_err_inv {g : Option String → Except Error (List Json × String)}
    {s : FetchState} {e : Error} {s2 : FetchState} {b : Bool}
    (h : step g s = (some (.error e, s2), b)) :
    s2.limit = s.limit ∧ s2.min_id = s.min_id ∧
      s2.tweets_count = s.tweets_count ∧ s2.errored = true := by
  unfold step at h
  split at h
  · simp at h
  · split at h
    · simp at h
    · split at h
      next t rest hts =>
        split at h
        next r s4 hsrt =>
          simp only [Prod.mk.injEq, Option.some.injEq] at h
          obtain ⟨⟨hr, hs4⟩, _⟩ := h
          subst hr
          have hrec := srt_err_inv hsrt
          subst hs4
          rw [hrec]
          exact ⟨rfl, rfl, rfl, rfl⟩
        next s4 hsrt =>
          have h4 := (srt_none_inv hsrt).1
          have hres := stepFetch_err_inv h
          rw [h4] at hres
          simpa using hres
      next hts => exact stepFetch_err_inv h

theorem step_below_floor {g : Option String → Except Error (List Json × String)}
    {s : FetchState} {t : Json} {rest : List Json} {m id : Nat}
    (he : s.errored = false) (hl : limit_reached s = false)
    (hts : s.tweets = t :: rest) (hm : s.min_id = some m)
    (hid : parse_id t = .ok id) (hlt : id < m) :
    step g s = stepFetch g { s with tweets := rest } := by
  simp [step, he, hl, hts, should_return_tweet, hm, hid, hlt]

theorem run_of_errored {f : Nat → Option String → Except Error (List Json × String)}
    {k n : Nat} {s : FetchState} (h : s.errored = true) : run f k n s = ([], 0) := by
  cases n with
  | zero => rfl
  | succ n => simp [run, step_none_of_errored h]

theorem run_countOk_le {f : Nat → Option String → Except Error (List Json × String)}
    {L : Nat} : ∀ (n k : Nat) (s : FetchState), s.limit = some L →
    (run f k n s).1.countP isOkItem ≤ L - s.tweets_count := by
  intro n
  induction n with
  | zero => intro k s hL; simp [run]
  | succ n ih =>
    intro k s hL
    rcases hst : step (f k) s with ⟨o, fetched⟩
    cases o with
    | none => simp [run, hst]
    | some p =>
      obtain ⟨item, s2⟩ := p
      have hrun : (run f k (n + 1) s).1 =
          item :: (run f (k + if fetched then 1 else 0) n s2).1 := by
        simp [run, hst]
      have hnl : limit_reached s = false := (step_some_not_terminal hst).2
      have hlt : s.tweets_count < L := by
        have : ¬ L ≤ s.tweets_count := by
          simpa [limit_reached, hL] using hnl
        omega
      rw [hrun]
      cases item with
      | ok u =>
        obtain ⟨hlim, _, hcnt, _, _⟩ := step_ok_inv hst
        have h2 := ih (k + if fetched then 1 else 0) s2 (by rw [hlim, hL])
        rw [hcnt] at h2
        simp [List.countP_cons, isOkItem]
        omega
      | error e =>
        obtain ⟨hlim, _, hcnt, _⟩ := step_err_inv hst
        have h2 := ih (k + if fetched then 1 else 0) s2 (by rw [hlim, hL])
        rw [hcnt] at h2
        simp [List.countP_cons, isOkItem]
        omega

theorem run_err_last {f : Nat → Option String → Except Error (List Json × String)} :
    ∀ (n k : Nat) (s : FetchState), s.errored = false →
    (run f k n s).1.countP isErrItem ≤ 1 ∧
      ∀ pre e suf, (run f k n s).1 = pre ++ .error e :: suf → suf = [] := by
  intro n
  induction n with
  | zero =>
    intro k s _
    refine ⟨by simp [run], fun pre e suf h => ?_⟩
    rw [show (run f k 0 s).1 = [] from rfl] at h
    exact absurd h (by simp)
  | succ n ih =>
    intro k s hs
    rcases hst : step (f k) s with ⟨o, fetched⟩
    cases o with
    | none =>
      refine ⟨by simp [run, hst], fun pre e suf h => ?_⟩
      rw [show (run f k (n + 1) s).1 = [] by simp [run, hst]] at h
      exact absurd h (by simp)
    | some p =>
      obtain ⟨item, s2⟩ := p
      have hrun : (run f k (n + 1) s).1 =
          item :: (run f (k + if fetched then 1 else 0) n s2).1 := by
        simp [run, hst]
      cases item with
      | ok u =>
        have herr2 : s2.errored = false := by
          have := (step_ok_inv hst).2.2.2.1
          rw [this, hs]
        obtain ⟨ih1, ih2⟩ := ih (k + if fetched then 1 else 0) s2 herr2
        refine ⟨?_, fun pre e suf h => ?_⟩
        · rw [hrun]; simp [List.countP_cons, isErrItem]; omega
        · rw [hrun] at h
          cases pre with
          | nil => simp at h
          | cons p0 pre2 =>
            simp only [List.cons_append, List.cons.injEq] at h
            exact ih2 pre2 e suf h.2
      | error e0 =>
        have herr2 : s2.errored = true := (step_err_inv hst).2.2.2
        have hrest : (run f (k + if fetched then 1 else 0) n s2).1 = [] := by
          rw [run_of_errored herr2]
        rw [hrest] at hrun
        refine ⟨?_, fun pre e suf h => ?_⟩
        · rw [hrun]; simp [isErrItem]
        · rw [hrun] at h
          cases pre with
          | nil =>
            simp only [List.nil_append, List.cons.injEq] at h
            exact h.2.symm
          | cons p0 pre2 =>
            simp only [List.cons_append, List.cons.injEq] at h
            exact absurd h.2 (by simp)

theorem run_ok_ge_floor {f : Nat → Option String → Except Error (List Json × String)}
    {m : Nat} : ∀ (n k : Nat) (s : FetchState), s.min_id = some m →
    ∀ t, (Except.ok t) ∈ (run f k n s).1 → ∃ id, parse_id t = .ok id ∧ m ≤ id := by
  intro n
  induction n with
  | zero => intro k s _ t ht; simp [run] at ht
  | succ n ih =>
    intro k s hm t ht
    rcases hst : step (f k) s with ⟨o, fetched⟩
    cases o with
    | none =>
      rw [show (run f k (n + 1) s).1 = [] by simp [run, hst]] at ht
      simp at ht
    | some p =>
      obtain ⟨item, s2⟩ := p
      have hrun : (run f k (n + 1) s).1 =
          item :: (run f (k + if fetched then 1 else 0) n s2).1 := by
        simp [run, hst]
      rw [hrun] at ht
      rcases List.mem_cons.mp ht with heq | hmem
      · cases item with
        | error e => simp at heq
        | ok u =>
          have hu : u = t := by injection heq.symm
          exact hu ▸ (step_ok_inv hst).2.2.2.2 m hm
      · cases item with
        | ok u =>
          have hmin : s2.min_id = some m := by rw [(step_ok_inv hst).2.1, hm]
          exact ih (k + if fetched then 1 else 0) s2 hmin t hmem
        | error e =>
          have hmin : s2.min_id = some m := by rw [(step_err_inv hst).2.1, hm]
          exact ih (k + if fetched then 1 else 0) s2 hmin t hmem

/-! Helper lemmas about the page decoder and the key order. -/

theorem charListLt_trans : ∀ (a b c : List Char),
    charListLt a b = true → charListLt b c = true → charListLt a c = true := by
  intro a
  induction a with
  | nil =>
    intro b c hab hbc
    cases c with
    | nil => cases b <;> simp [charListLt] at hab hbc
    | cons c0 cs => simp [charListLt]
  | cons a0 as ih =>
    intro b c hab hbc
    cases b with
    | nil => simp [charListLt] at hab
    | cons b0 bs =>
      cases c with
      | nil => simp [charListLt] at hbc
      | cons c0 cs =>
        simp only [charListLt] at hab hbc ⊢
        by_cases h1 : a0.toNat < b0.toNat
        · by_cases h2 : b0.toNat < c0.toNat
          · have h5 : a0.toNat < c0.toNat := by omega
            simp [h5]
          · by_cases h3 : c0.toNat < b0.toNat
            · simp [h2, h3] at hbc
            · have h5 : a0.toNat < c0.toNat := by omega
              simp [h5]
        · by_cases h3 : b0.toNat < a0.toNat
          · simp [h1, h3] at hab
          · rw [if_neg h1, if_neg h3] at hab
            by_cases h2 : b0.toNat < c0.toNat
            · have h5 : a0.toNat < c0.toNat := by omega
              simp [h5]
            · by_cases h4 : c0.toNat < b0.toNat
              · simp [h2, h4] at hbc
              · rw [if_neg h2, if_neg h4] at hbc
                have h5 : ¬ a0.toNat < c0.toNat := by omega
                have h6 : ¬ c0.toNat < a0.toNat := by omega
                rw [if_neg h5, if_neg h6]
                exact ih bs cs hab hbc

theorem charListLt_compat : ∀ (a b c : List Char),
    charListLt a b = false → charListLt b a = false →
    charListLt b c = true → charListLt a c = true := by
  intro a
  induction a with
  | nil =>
    intro b c hab hba hbc
    cases b with
    | nil => exact hbc
    | cons b0 bs => simp [charListLt] at hab
  | cons a0 as ih =>
    intro b c hab hba hbc
    cases b with
    | nil => simp [charListLt] at hba
    | cons b0 bs =>
      cases c with
      | nil => simp [charListLt] at hbc
      | cons c0 cs =>
        simp only [charListLt] at hab hba hbc ⊢
        by_cases h1 : a0.toNat < b0.toNat
        · simp [h1] at hab
        · by_cases h2 : b0.toNat < a0.toNat
          · simp [h2] at hba
          · rw [if_neg h1, if_neg h2] at hab
            rw [if_neg h2, if_neg h1] at hba
            by_cases h3 : b0.toNat < c0.toNat
            · have h5 : a0.toNat < c0.toNat := by omega
              simp [h5]
            · by_cases h4 : c0.toNat < b0.toNat
              · simp [h3, h4] at hbc
              · rw [if_neg h3, if_neg h4] at hbc
                have h5 : ¬ a0.toNat < c0.toNat := by omega
                have h6 : ¬ c0.toNat < a0.toNat := by omega
                rw [if_neg h5, if_neg h6]
                exact ih bs cs hab hba hbc

theorem strLt_trans {a b c : String} (h1 : strLt a b = true)
    (h2 : strLt b c = true) : strLt a c = true :=
  charListLt_trans _ _ _ h1 h2

theorem strLt_compat {a b c : String} (hab : strLt a b = false)
    (hba : strLt b a = false) (hbc : strLt b c = true) : strLt a c = true :=
  charListLt_compat _ _ _ hab hba hbc

theorem insertSorted_mem {k : String} {v : Json} {p : String × Json} :
    ∀ {l : List (String × Json)}, p ∈ insertSorted k v l → p = (k, v) ∨ p ∈ l
  | [], h => by simpa [insertSorted] using h
  | (k2, v2) :: rest, h => by
    unfold insertSorted at h
    split at h
    · rcases List.mem_cons.mp h with h1 | h1
      · exact Or.inl h1
      · exact Or.inr h1
    · split at h
      · rcases List.mem_cons.mp h with h1 | h1
        · exact Or.inr (h1 ▸ List.mem_cons_self _ _)
        · rcases insertSorted_mem h1 with h2 | h2
          · exact Or.inl h2
          · exact Or.inr (List.mem_cons_of_mem _ h2)
      · rcases List.mem_cons.mp h with h1 | h1
        · exact Or.inl h1
        · exact Or.inr (List.mem_cons_of_mem _ h1)

theorem insertSorted_pairwise {k : String} {v : Json} :
    ∀ {l : List (String × Json)},
      l.Pairwise (fun a b => strLt a.1 b.1 = true) →
      (insertSorted k v l).Pairwise (fun a b => strLt a.1 b.1 = true)
  | [], _ => by simp [insertSorted]
  | (k2, v2) :: rest, h => by
    unfold insertSorted
    by_cases h1 : strLt k k2 = true
    · simp only [h1, if_true]
      refine List.Pairwise.cons ?_ h
      intro b hb
      rcases List.mem_cons.mp hb with h2 | h2
      · rw [h2]; exact h1
      · exact strLt_trans h1 (List.rel_of_pairwise_cons h h2)
    · have h1f : strLt k k2 = false := Bool.eq_false_iff.mpr h1
      by_cases h2 : strLt k2 k = true
      · simp only [h1f, h2, Bool.false_eq_true, if_false, if_true]
        refine List.Pairwise.cons ?_ (insertSorted_pairwise h.of_cons)
        intro b hb
        rcases insertSorted_mem hb with h3 | h3
        · rw [h3]; exact h2
        · exact List.rel_of_pairwise_cons h h3
      · have h2f : strLt k2 k = false := Bool.eq_false_iff.mpr h2
        simp only [h1f, h2f, Bool.false_eq_true, if_false]
        refine List.Pairwise.cons ?_ h.of_cons
        intro b hb
        exact strLt_compat h1f h2f (List.rel_of_pairwise_cons h hb)

theorem toBTreeMap_pairwise (l : List (String × Json)) :
    (toBTreeMap l).Pairwise (fun a b => strLt a.1 b.1 = true) := by
  suffices h : ∀ acc : List (String × Json),
      acc.Pairwise (fun a b => strLt a.1 b.1 = true) →
      (l.foldl (fun acc kv => insertSorted kv.1 kv.2 acc) acc).Pairwise
        (fun a b => strLt a.1 b.1 = true) by
    exact h [] (by simp)
  induction l with
  | nil => intro acc hacc; simpa using hacc
  | cons kv rest ih =>
    intro acc hacc
    exact ih _ (insertSorted_pairwise hacc)

theorem deserializeRoot_ok_inv {j : Json} {root : Root}
    (h : deserializeRoot j = .ok root) :
    ∃ tfs ufs tl, root =
      { tweets := toBTreeMap tfs, users := toBTreeMap ufs, timeline := tl } := by
  unfold deserializeRoot at h
  repeat' split at h
  all_goals first
    | (simp only [Except.ok.injEq] at h
       exact ⟨_, _, _, h.symm⟩)
    | exact absurd h (by simp)

theorem parse_tweets_ok_inv {j : Json} {recs : List Json} {c : String}
    (h : parse_tweets j = .ok (recs, c)) :
    ∃ root, deserializeRoot j = .ok root ∧
      findCursor (Json.render root.timeline) = some c ∧
      recs = (root.tweets.map (fun kv => mergeUser root.users kv.2)).reverse := by
  unfold parse_tweets at h
  split at h
  · simp at h
  next root hroot =>
    split at h
    · simp at h
    next c0 hfc =>
      simp only [Except.ok.injEq, Prod.mk.injEq] at h
      obtain ⟨hrecs, hc⟩ := h
      subst hc
      exact ⟨root, hroot, hfc, hrecs.symm⟩

theorem findCursorFrom_leftmost : ∀ {l : List Char} {c : String},
    findCursorFrom l = some c →
    ∃ i, tokenAt (l.drop i) = some c ∧ ∀ i2 < i, tokenAt (l.drop i2) = none := by
  intro l
  induction l with
  | nil => intro c h; simp [findCursorFrom] at h
  | cons x rest ih =>
    intro c h
    unfold findCursorFrom at h
    cases ht : tokenAt (x :: rest) with
    | some s =>
      rw [ht] at h
      refine ⟨0, ?_, ?_⟩
      · simpa using ht.trans h
      · intro i2 hi2; omega
    | none =>
      rw [ht] at h
      obtain ⟨i, h1, h2⟩ := ih h
      refine ⟨i + 1, by simpa using h1, ?_⟩
      intro i2 hi2
      cases i2 with
      | zero => simpa using ht
      | succ i3 => simpa using h2 i3 (by omega)

theorem takeBody_ne_nil {l : List Char} {b : List Char}
    (h : takeBody l = some b) : b ≠ [] := by
  unfold takeBody at h
  cases l with
  | nil => simp at h
  | cons c rest =>
    by_cases hc : c = '\n'
    · simp [hc] at h
    · simp only [hc, if_false] at h
      rw [Option.map_eq_some'] at h
      obtain ⟨b2, _, hb⟩ := h
      rw [← hb]
      simp

theorem stringMk_ne_empty {l : List Char} (h : l ≠ []) : String.mk l ≠ "" := by
  intro he
  apply h
  have h2 := congrArg String.data he
  simpa using h2

theorem tokenAt_shape {l : List Char} {c : String} (h : tokenAt l = some c) :
    ∃ b : String, c = "scroll:" ++ b ∧ b ≠ "" := by
  unfold tokenAt at h
  split at h
  next rest =>
    split at h
    · rw [Option.map_eq_some'] at h
      obtain ⟨body, htb, hc⟩ := h
      exact ⟨String.mk body, hc.symm, stringMk_ne_empty (takeBody_ne_nil htb)⟩
    · simp at h
  next => simp at h

/-! Claim theorems for the stream engine. -/

/-- Claim C1, counterexample: the claim says the first below-floor record
popped from the buffer ends the stream without any record being yielded
and without any further page fetch. At state sBelow (floor 100, buffer
head of identifier 50) the pull pops the below-floor record, then still
performs a page fetch (the Bool is true) and yields the record of the
freshly fetched page instead of ending the stream. -/
theorem claim_C1_cex :
    (step (fetchC1 0) sBelow).2 = true ∧
    (step (fetchC1 0) sBelow).1.map (fun p => p.1) = some (Except.ok tweet200) :=
  ⟨rfl, rfl⟩

/-- Claim C1, amended: with a configured floor M, every successful record
the stream yields parses to an identifier of at least M (so the
below-floor record itself is never yielded); but popping a below-floor
record does not terminate the pull: the same pull performs one further
page fetch and retries the head check on the refilled buffer, and only if
that retry yields nothing does the stream end. -/
theorem claim_C1_floor_amended
    (f : Nat → Option String → Except Error (List Json × String))
    (k n : Nat) (s : FetchState) (m : Nat) (hm : s.min_id = some m) :
    (∀ t, (Except.ok t) ∈ (run f k n s).1 → ∃ id, parse_id t = .ok id ∧ m ≤ id) ∧
    (∀ (g : Option String → Except Error (List Json × String)) (t : Json)
        (rest : List Json) (id : Nat),
      s.errored = false → limit_reached s = false → s.tweets = t :: rest →
      parse_id t = .ok id → id < m →
      step g s = stepFetch g { s with tweets := rest } ∧
        (stepFetch g { s with tweets := rest }).2 = true) := by
  refine ⟨fun t ht => run_ok_ge_floor n k s hm t ht,
    fun g t rest id he hl hts hid hlt => ?_⟩
  exact ⟨step_below_floor he hl hts hm hid hlt, stepFetch_fetched g _⟩

/-- Witness for the amended claim C1 at a concrete stream. -/
theorem claim_C1_floor_amended_witness :
    (∃ id, parse_id tweet200 = .ok id ∧ 100 ≤ id) ∧
    (step fetchOne sBelow = stepFetch fetchOne { sBelow with tweets := [] } ∧
      (stepFetch fetchOne { sBelow with tweets := [] }).2 = true) := by
  have h := claim_C1_floor_amended fetchC1 0 2 sBelow 100 rfl
  refine ⟨?_, h.2 fetchOne tweet50 [] 50 rfl rfl rfl rfl (by decide)⟩
  have hl : (run fetchC1 0 2 sBelow).1 = [Except.ok tweet200, Except.ok tweet200] := rfl
  exact h.1 tweet200 (hl ▸ List.mem_cons_self _ _)

/-- Claim C2, counterexample: the claim says an empty decoded page with a
valid cursor does not terminate the stream and a subsequent pull fetches
again. At the empty-buffer state sEmpty with a network always returning
an empty page with cursor, the pull returns none (which terminates the
unfold stream) and three offered pulls perform exactly one fetch in
total. -/
theorem claim_C2_cex :
    step (fetchEmpty 0) sEmpty = (none, true) ∧
    run fetchEmpty 0 3 sEmpty = ([], 1) :=
  ⟨rfl, rfl⟩

/-- Claim C2, amended: from a non-terminal state with an empty buffer,
when the fetched page decodes to an empty record sequence with a valid
cursor, the pull performs that one fetch, yields nothing, and terminates
the stream, so no subsequent pull and no further fetch occurs. -/
theorem claim_C2_empty_page_amended
    (f : Nat → Option String → Except Error (List Json × String))
    (k n : Nat) (s : FetchState) (c : String)
    (h1 : s.errored = false) (h2 : limit_reached s = false)
    (h3 : s.tweets = []) (h4 : f k s.cursor = .ok ([], c)) :
    step (f k) s = (none, true) ∧ run f k (n + 1) s = ([], 1) := by
  have hstep : step (f k) s = (none, true) := by
    unfold step stepFetch
    simp [h1, h2, h3, h4]
  exact ⟨hstep, by simp [run, hstep]⟩

/-- Witness for the amended claim C2 at a concrete stream. -/
theorem claim_C2_empty_page_amended_witness :
    step (fetchEmpty 0) sEmpty = (none, true) ∧
    run fetchEmpty 0 2 sEmpty = ([], 1) :=
  claim_C2_empty_page_amended fetchEmpty 0 1 sEmpty "scroll:next" rfl rfl rfl rfl

/-- Claim C4: with a configured limit L, a whole stream started by the
reset of TweetScraper::tweets yields at most L successful records, and at
any state whose yielded count has reached L the pull ends the stream
without yielding and without fetching. -/
theorem claim_C4_limit
    (f : Nat → Option String → Except Error (List Json × String))
    (k n : Nat) (prev : FetchState) (q : String) (L : Nat) (m : Option Nat)
    (s : FetchState) (hs : s.limit = some L) (hcount : L ≤ s.tweets_count) :
    (run f k n (tweets_reset prev q (some L) m)).1.countP isOkItem ≤ L ∧
    step (f k) s = (none, false) := by
  constructor
  · have h := run_countOk_le (f := f) n k (tweets_reset prev q (some L) m) rfl
    simpa [tweets_reset, FetchState.defaultState] using h
  · exact step_none_of_limit (by simp [limit_reached, hs, hcount])

/-- Witness for claim C4 at a concrete stream. -/
theorem claim_C4_limit_witness :
    (run fetchC1 0 3 (tweets_reset sErrored "q" (some 1) none)).1.countP isOkItem ≤ 1 ∧
    step (fetchC1 0) sReached = (none, false) :=
  claim_C4_limit fetchC1 0 3 sErrored "q" 1 none sReached rfl (by decide)

/-- Claim C5: a stream started in a non-errored state produces at most
one error item and any error item is the final item of the stream, and at
any state carrying the sticky errored flag the pull ends the stream
without yielding and without fetching. -/
theorem claim_C5_single_error
    (f : Nat → Option String → Except Error (List Json × String))
    (k n : Nat) (s s2 : FetchState)
    (h : s.errored = false) (h2 : s2.errored = true) :
    (run f k n s).1.countP isErrItem ≤ 1 ∧
    (∀ pre e suf, (run f k n s).1 = pre ++ .error e :: suf → suf = []) ∧
    step (f k) s2 = (none, false) := by
  obtain ⟨a, b⟩ := run_err_last n k s h
  exact ⟨a, b, step_none_of_errored h2⟩

/-- Witness for claim C5 at a concrete stream whose first fetch fails. -/
theorem claim_C5_single_error_witness :
    (run fetchFail 0 3 sEmpty).1.countP isErrItem ≤ 1 ∧
    step (fetchFail 0) sErrored = (none, false) := by
  have h := claim_C5_single_error fetchFail 0 3 sEmpty sErrored rfl rfl
  exact ⟨h.1, h.2.2⟩

/-- Claim C10: each call of TweetScraper::tweets rebuilds the stream
state from scratch, whatever the previous state was: empty buffer, no
cursor, zero yielded count, cleared errored flag, and the freshly given
query, limit and floor. -/
theorem claim_C10_fresh_state (prev : FetchState) (q : String)
    (limit min_id : Option Nat) :
    (tweets_reset prev q limit min_id).tweets = [] ∧
    (tweets_reset prev q limit min_id).cursor = none ∧
    (tweets_reset prev q limit min_id).tweets_count = 0 ∧
    (tweets_reset prev q limit min_id).errored = false ∧
    (tweets_reset prev q limit min_id).query = q ∧
    (tweets_reset prev q limit min_id).limit = limit ∧
    (tweets_reset prev q limit min_id).min_id = min_id :=
  ⟨rfl, rfl, rfl, rfl, rfl, rfl, rfl⟩

/-! Claim theorems for the page fetcher and the page decoder. -/

/-- Claim C3: the retry condition holds exactly for the statuses 429 and
408 and the 5xx range; any run of retryable non-2xx responses is retried
with one fixed 60 second sleep each and no cap (the loop is still running
after any finite number of retryable responses); and a non-retryable
non-2xx response ends the loop at once with the BadStatus error carrying
the code, without further sleeping and without looking at any later
response. -/
theorem claim_C3_retry_policy :
    (∀ st : Nat, isRetryStatus st = true ↔
      (st = 429 ∨ st = 408 ∨ (500 ≤ st ∧ st ≤ 599))) ∧
    (∀ (pre : List HttpAttempt) (c : Nat) (body : Json) (rest : List HttpAttempt),
      (∀ a ∈ pre, ∃ st b2, a = HttpAttempt.resp st b2 ∧
        isSuccessStatus st = false ∧ isRetryStatus st = true) →
      isSuccessStatus c = false → isRetryStatus c = false →
      query_twitter_loop (pre ++ HttpAttempt.resp c body :: rest) =
        .err (.badStatus c) (60 * pre.length)) ∧
    (∀ pre : List HttpAttempt,
      (∀ a ∈ pre, ∃ st b2, a = HttpAttempt.resp st b2 ∧
        isSuccessStatus st = false ∧ isRetryStatus st = true) →
      query_twitter_loop pre = .hung) := by
  refine ⟨?_, ?_, ?_⟩
  · intro st
    simp [isRetryStatus, isServerErrorStatus, retry_status]
    omega
  · intro pre
    induction pre with
    | nil =>
      intro c body rest _ hcs hcr
      simp [query_twitter_loop, hcs, hcr]
    | cons a pre ih =>
      intro c body rest hall hcs hcr
      obtain ⟨st, b2, ha, hsf, hrt⟩ := hall a (List.mem_cons_self a pre)
      subst ha
      have ihres := ih c body rest (fun x hx => hall x (List.mem_cons_of_mem _ hx)) hcs hcr
      rw [List.cons_append]
      unfold query_twitter_loop
      rw [hsf, hrt]
      simp only [Bool.false_eq_true, if_false, if_true, ihres, addSleep]
      simp [List.length_cons, Nat.mul_succ, Nat.add_comm]
  · intro pre
    induction pre with
    | nil => intro _; rfl
    | cons a pre ih =>
      intro hall
      obtain ⟨st, b2, ha, hsf, hrt⟩ := hall a (List.mem_cons_self a pre)
      subst ha
      have ihres := ih (fun x hx => hall x (List.mem_cons_of_mem _ hx))
      unfold query_twitter_loop
      rw [hsf, hrt]
      simp [ihres, addSleep]

/-- Witness for claim C3: two retryable responses (429 then 503), then a
404, give the BadStatus 404 error after two 60 second sleeps. -/
theorem claim_C3_retry_policy_witness :
    query_twitter_loop [HttpAttempt.resp 429 Json.null, HttpAttempt.resp 503 Json.null,
      HttpAttempt.resp 404 Json.null] = .err (.badStatus 404) 120 := by
  have hall : ∀ a ∈ [HttpAttempt.resp 429 Json.null, HttpAttempt.resp 503 Json.null],
      ∃ st b2, a = HttpAttempt.resp st b2 ∧ isSuccessStatus st = false ∧
        isRetryStatus st = true := by
    intro a ha
    rcases List.mem_cons.mp ha with h1 | h2
    · exact ⟨429, Json.null, h1, by decide, by decide⟩
    · rcases List.mem_cons.mp h2 with h3 | h4
      · exact ⟨503, Json.null, h3, by decide, by decide⟩
      · simp at h4
  have h := claim_C3_retry_policy.2.1 [HttpAttempt.resp 429 Json.null,
      HttpAttempt.resp 503 Json.null] 404 Json.null [] hall (by decide) (by decide)
  simpa using h

/-- Claim C6: whenever the page decoder succeeds, the underlying tweets
map is sorted in ascending key order (the BTreeMap key order), the keys
of the output sequence are therefore in descending order, and the output
record sequence is exactly the merged values in ascending key order with
the sequence then reversed. -/
theorem claim_C6_descending (j : Json) (recs : List Json) (c : String)
    (h : parse_tweets j = .ok (recs, c)) :
    ∃ root, deserializeRoot j = .ok root ∧
      root.tweets.Pairwise (fun a b => strLt a.1 b.1 = true) ∧
      ((root.tweets.map Prod.fst).reverse).Pairwise (fun a b => strLt b a = true) ∧
      recs = (root.tweets.map (fun kv => mergeUser root.users kv.2)).reverse := by
  obtain ⟨root, hroot, _, hrecs⟩ := parse_tweets_ok_inv h
  obtain ⟨tfs, ufs, tl, hshape⟩ := deserializeRoot_ok_inv hroot
  have hpw : root.tweets.Pairwise (fun a b => strLt a.1 b.1 = true) := by
    rw [hshape]
    exact toBTreeMap_pairwise tfs
  refine ⟨root, hroot, hpw, ?_, hrecs⟩
  rw [List.pairwise_reverse, List.pairwise_map]
  exact hpw

/-- Witness for claim C6 at the concrete page page1. -/
theorem claim_C6_descending_witness :
    ∃ root, deserializeRoot page1 = .ok root ∧
      root.tweets.Pairwise (fun a b => strLt a.1 b.1 = true) ∧
      ((root.tweets.map Prod.fst).reverse).Pairwise (fun a b => strLt b a = true) ∧
      recsPage1 = (root.tweets.map (fun kv => mergeUser root.users kv.2)).reverse :=
  claim_C6_descending page1 recsPage1 "scroll:AAA" rfl

/-- Claim C7: given a successfully deserialized Root, the decoder fails
with the fatal cursor-not-found parse error exactly when the serialized
timeline holds no scroll token, and otherwise returns as cursor the
leftmost match of the scroll regex over that serialization (the match at
the smallest starting position). -/
theorem claim_C7_cursor (j : Json) (root : Root)
    (h : deserializeRoot j = .ok root) :
    (findCursor (Json.render root.timeline) = none →
      parse_tweets j = .error (.tweetParse "could not find cursor")) ∧
    (∀ c, findCursor (Json.render root.timeline) = some c →
      (∃ recs, parse_tweets j = .ok (recs, c)) ∧
      (∃ i, tokenAt ((Json.render root.timeline).toList.drop i) = some c ∧
        ∀ i2 < i, tokenAt ((Json.render root.timeline).toList.drop i2) = none)) := by
  constructor
  · intro hnone
    unfold parse_tweets
    rw [h]
    simp only [hnone]
  · intro c hsome
    constructor
    · refine ⟨(root.tweets.map (fun kv => mergeUser root.users kv.2)).reverse, ?_⟩
      unfold parse_tweets
      rw [h]
      simp only [hsome]
    · exact findCursorFrom_leftmost hsome

/-- Witness for claim C7 at the concrete page page1. -/
theorem claim_C7_cursor_witness :
    (∃ recs, parse_tweets page1 = .ok (recs, "scroll:AAA")) ∧
    (∃ i, tokenAt ((Json.render rootPage1.timeline).toList.drop i) = some "scroll:AAA" ∧
      ∀ i2 < i, tokenAt ((Json.render rootPage1.timeline).toList.drop i2) = none) :=
  (claim_C7_cursor page1 rootPage1 rfl).2 "scroll:AAA" rfl

/-- Claim C9: every cursor the page decoder accepts and returns is a
non-empty string carrying the scroll: prefix, with at least one further
character. -/
theorem claim_C9_cursor_prefix (j : Json) (recs : List Json) (c : String)
    (h : parse_tweets j = .ok (recs, c)) :
    ∃ b : String, c = "scroll:" ++ b ∧ b ≠ "" := by
  obtain ⟨root, _, hfc, _⟩ := parse_tweets_ok_inv h
  obtain ⟨i, hi, _⟩ :=
    findCursorFrom_leftmost
      (show findCursorFrom (Json.render root.timeline).toList = some c from hfc)
  exact tokenAt_shape hi

/-- Witness for claim C9 at the concrete page page1. -/
theorem claim_C9_cursor_prefix_witness :
    ∃ b : String, "scroll:AAA" = "scroll:" ++ b ∧ b ≠ "" :=
  claim_C9_cursor_prefix page1 recsPage1 "scroll:AAA" rfl

/-! Helper lemmas about header persistence, and claim C8. -/

theorem headerNameByte_ne {c : Char} (h : headerNameByte c = some c) :
    c ≠ '\n' ∧ c ≠ '=' ∧ c ≠ '\r' := by
  refine ⟨?_, ?_, ?_⟩ <;> intro hc <;> rw [hc] at h <;> exact absurd h (by decide)

theorem isValidValueChar_ne {c : Char} (h : isValidValueChar c = true) :
    c ≠ '\n' ∧ c ≠ '\r' := by
  constructor <;> intro hc <;> rw [hc] at h <;> exact absurd h (by decide)

theorem splitOnceChar_append {k v : List Char} (hk : ∀ c ∈ k, c ≠ '=') :
    splitOnceChar '=' (k ++ '=' :: v) = some (k, v) := by
  induction k with
  | nil => simp [splitOnceChar]
  | cons c rest ih =>
    have hc : c ≠ '=' := hk c (List.mem_cons_self _ _)
    simp [splitOnceChar, hc, ih (fun x hx => hk x (List.mem_cons_of_mem _ hx))]

theorem mapHeaderChars_id : ∀ {k : List Char},
    (∀ c ∈ k, headerNameByte c = some c) → mapHeaderChars k = some k
  | [], _ => rfl
  | c :: rest, h => by
    have hc : headerNameByte c = some c := h c (List.mem_cons_self _ _)
    have hrest := mapHeaderChars_id (fun x hx => h x (List.mem_cons_of_mem _ hx))
    simp [mapHeaderChars, hc, hrest]

theorem insertHeader_append {acc : List (List Char × List Char)} {k v : List Char}
    (h : ∀ q ∈ acc, q.1 ≠ k) : insertHeader acc k v = acc ++ [(k, v)] := by
  unfold insertHeader
  have hany : acc.any (fun p => p.1 = k) = false := by
    rw [List.any_eq_false]
    intro p hp
    simp [h p hp]
  rw [hany]
  simp

theorem processLine_header (acc : List (List Char × List Char)) (k v : List Char)
    (hk0 : k ≠ []) (hk : ∀ c ∈ k, headerNameByte c = some c)
    (hv : ∀ c ∈ v, isValidValueChar c = true) :
    processLine acc (k ++ '=' :: v) = .ok (insertHeader acc k v) := by
  unfold processLine
  have hws : (k ++ '=' :: v).all (fun c => c.isWhitespace) = false := by
    rw [List.all_eq_false]
    exact ⟨'=', by simp, by decide⟩
  have hname : headerNameFromChars k = some k := by
    unfold headerNameFromChars
    rw [if_neg (by simpa using hk0)]
    exact mapHeaderChars_id hk
  simp only [hws, Bool.false_eq_true, if_false,
    splitOnceChar_append (fun c hc => (headerNameByte_ne (hk c hc)).2.1),
    hname, List.all_eq_true.mpr hv, if_true]

theorem splitLinesAux_cons (acc : List Char) (c : Char) (rest : List Char) :
    splitLinesAux acc (c :: rest) =
      if c = '\n' then
        (match acc with
         | '\r' :: acc2 => acc2.reverse
         | _ => acc.reverse) :: splitLinesAux [] rest
      else splitLinesAux (c :: acc) rest := rfl

theorem splitLinesAux_no_newline : ∀ (l acc rest : List Char),
    (∀ c ∈ l, c ≠ '\n') →
    splitLinesAux acc (l ++ rest) = splitLinesAux (l.reverse ++ acc) rest := by
  intro l
  induction l with
  | nil => intro acc rest _; simp
  | cons c cs ih =>
    intro acc rest h
    have hc : c ≠ '\n' := h c (List.mem_cons_self _ _)
    rw [List.cons_append, splitLinesAux_cons, if_neg hc,
      ih (c :: acc) rest (fun x hx => h x (List.mem_cons_of_mem _ hx))]
    simp

theorem splitLines_header_line (k v rest : List Char)
    (hk : ∀ c ∈ k, headerNameByte c = some c)
    (hv : ∀ c ∈ v, isValidValueChar c = true) :
    splitLinesAux [] ((k ++ '=' :: v ++ ['\n']) ++ rest) =
      (k ++ '=' :: v) :: splitLinesAux [] rest := by
  have hline : (k ++ '=' :: v ++ ['\n']) ++ rest = (k ++ '=' :: v) ++ ('\n' :: rest) := by
    simp
  rw [hline]
  have hnn : ∀ c ∈ k ++ '=' :: v, c ≠ '\n' := by
    intro c hc
    rcases List.mem_append.mp hc with h1 | h1
    · exact (headerNameByte_ne (hk c h1)).1
    · rcases List.mem_cons.mp h1 with h2 | h2
      · rw [h2]; decide
      · exact (isValidValueChar_ne (hv c h2)).1
  rw [splitLinesAux_no_newline _ _ _ hnn]
  have hnr : ∀ c ∈ k ++ '=' :: v, c ≠ '\r' := by
    intro c hc
    rcases List.mem_append.mp hc with h1 | h1
    · exact (headerNameByte_ne (hk c h1)).2.2
    · rcases List.mem_cons.mp h1 with h2 | h2
      · rw [h2]; decide
      · exact (isValidValueChar_ne (hv c h2)).2
  rw [List.append_nil, splitLinesAux_cons, if_pos rfl]
  congr 1
  split
  next acc2 heq =>
    exfalso
    have hmem : '\r' ∈ (k ++ '=' :: v).reverse := by
      rw [heq]
      exact List.mem_cons_self _ _
    rw [List.mem_reverse] at hmem
    exact hnr '\r' hmem rfl
  next =>
    exact List.reverse_reverse _

theorem save_headers_cons (k v : List Char) (hs : List (List Char × List Char)) :
    save_headers ((k, v) :: hs) = (k ++ '=' :: v ++ ['\n']) ++ save_headers hs := by
  simp [save_headers]

theorem load_save_aux :
    ∀ (hs acc : List (List Char × List Char)),
      (∀ p ∈ hs, p.1 ≠ [] ∧ (∀ c ∈ p.1, headerNameByte c = some c) ∧
        (∀ c ∈ p.2, isValidValueChar c = true)) →
      (∀ p ∈ hs, ∀ q ∈ acc, q.1 ≠ p.1) →
      (hs.map Prod.fst).Nodup →
      (splitLines (save_headers hs)).foldlM processLine acc = .ok (acc ++ hs) := by
  intro hs
  induction hs with
  | nil =>
    intro acc _ _ _
    show Except.ok acc = Except.ok (acc ++ [])
    rw [List.append_nil]
  | cons p hs ih =>
    obtain ⟨k, v⟩ := p
    intro acc hvalid hdisj hnodup
    obtain ⟨hk0, hk, hv⟩ := hvalid (k, v) (List.mem_cons_self _ _)
    rw [save_headers_cons]
    unfold splitLines
    rw [splitLines_header_line k v _ hk hv]
    rw [List.foldlM_cons]
    rw [processLine_header acc k v hk0 hk hv]
    rw [insertHeader_append (fun q hq => hdisj (k, v) (List.mem_cons_self _ _) q hq)]
    simp only [List.map_cons, List.nodup_cons] at hnodup
    have hdisj2 : ∀ p ∈ hs, ∀ q ∈ acc ++ [(k, v)], q.1 ≠ p.1 := by
      intro p hp q hq
      rcases List.mem_append.mp hq with h1 | h1
      · exact hdisj p (List.mem_cons_of_mem _ hp) q h1
      · have hq2 : q = (k, v) := by simpa using h1
        rw [hq2]
        intro hkp
        apply hnodup.1
        rw [show k = p.1 from hkp]
        exact List.mem_map_of_mem Prod.fst hp
    have ih2 := ih (acc ++ [(k, v)])
      (fun p hp => hvalid p (List.mem_cons_of_mem _ hp)) hdisj2 hnodup.2
    unfold splitLines at ih2
    show List.foldlM processLine (acc ++ [(k, v)]) (splitLinesAux [] (save_headers hs)) =
      Except.ok (acc ++ (k, v) :: hs)
    rw [ih2]
    simp

/-- Claim C8: saving a header mapping (distinct valid names, valid
values) and loading the produced file content gives back exactly the same
name-value pairs. -/
theorem claim_C8_roundtrip (hs : List (List Char × List Char))
    (hvalid : ∀ p ∈ hs, p.1 ≠ [] ∧ (∀ c ∈ p.1, headerNameByte c = some c) ∧
      (∀ c ∈ p.2, isValidValueChar c = true))
    (hnodup : (hs.map Prod.fst).Nodup) :
    load_headers (save_headers hs) = .ok hs := by
  unfold load_headers
  have h := load_save_aux hs [] hvalid (by intro p _ q hq; simp at hq) hnodup
  simpa using h

/-- Witness for claim C8 at the concrete header mapping hdrs. -/
theorem claim_C8_roundtrip_witness :
    load_headers (save_headers hdrs) = .ok hdrs :=
  claim_C8_roundtrip hdrs (by decide) (by decide)

end TweetScraper
